import Mathlib

/-!
Verification of the `turbo` repository's bounded duration codec
(`crates/turbo-tasks/src/pico_duration.rs`) and run orchestration
(`crates/turborepo-lib/src/commands/run.rs`) against its specification.

Machine integers are modelled as `Nat`, reduced modulo `2 ^ 64` exactly where
64-bit overflow matters (release-mode wrapping semantics); operations that can
panic (integer division by zero) return `Option`, with `none` in the
panicking case.
-/

/-- Size of the unsigned 64-bit integer range: `2 ^ 64`. -/
def U64_SIZE : Nat := 2 ^ 64

/-- Rust's integer division `a / b` panics when `b = 0`; it is modelled as the
checked division, returning `none` exactly in the panicking case. -/
def checked_div (a b : Nat) : Option Nat :=
  if b = 0 then none else some (a / b)

/-- Model of `std::time::Duration`: `secs` holds a `u64`, `nanos` a `u32`
that the standard library keeps below `10 ^ 9`. -/
structure Duration where
  secs : Nat
  nanos : Nat
deriving DecidableEq

/-- `Duration::is_zero`: true when both fields are zero (nanosecond-exact). -/
def Duration.is_zero (d : Duration) : Bool :=
  d.secs == 0 && d.nanos == 0

/-- `Duration::as_millis`: the whole-millisecond count, a `u128` in Rust.
Exact as a `Nat`: the count always fits in 128 bits, so no reduction is
needed. -/
def Duration.as_millis (d : Duration) : Nat :=
  d.secs * 1000 + d.nanos / 1000000

/-- `Duration::from_millis` on a `u64` argument: seconds are `millis / 1000`
and the remainder becomes nanoseconds. -/
def Duration.from_millis (millis : Nat) : Duration :=
  ⟨millis / 1000, millis % 1000 * 1000000⟩

/-- `PicoDuration<P>` from `pico_duration.rs`: a duration stored as a `u16`
count of `P`-millisecond units.  The stored `u16` is modelled as a `Nat`;
every constructor in the source stores a value that is at most
`u16::MAX = 65535`, so no truncation is needed.  The const generic `P` becomes
an explicit first argument of each operation. -/
structure PicoDuration where
  val : Nat
deriving DecidableEq

/-- `PicoDuration::ZERO`. -/
def PicoDuration.ZERO : PicoDuration := ⟨0⟩

/-- `PicoDuration::MIN`. -/
def PicoDuration.MIN : PicoDuration := ⟨1⟩

/-- `PicoDuration::MAX` (`u16::MAX`). -/
def PicoDuration.MAX : PicoDuration := ⟨65535⟩

/-- `PicoDuration::<P>::from_millis`.  The division `millis / P` is `u64`
division, which panics for `P = 0`; hence the `checked_div` and the `Option`
result.  `value as u16` is exact because the saturation check has already
bounded `value` by `65535`. -/
def PicoDuration.from_millis (P millis : Nat) : Option PicoDuration :=
  if millis = 0 then some PicoDuration.ZERO
  else if millis ≤ P then some PicoDuration.MIN
  else
    match checked_div millis P with
    | none => none
    | some value =>
      if 65535 < value then some PicoDuration.MAX else some ⟨value⟩

/-- `PicoDuration::<P>::from_secs`.  The source binds
`secs_precision = P / 1_000` (inlined here).  The product `secs * 1_000` is
`u64` arithmetic and wraps modulo `2 ^ 64` (release semantics); the division
by `P` panics for `P = 0`. -/
def PicoDuration.from_secs (P secs : Nat) : Option PicoDuration :=
  if secs = 0 then some PicoDuration.ZERO
  else if secs ≤ P / 1000 then some PicoDuration.MIN
  else
    match checked_div (secs * 1000 % U64_SIZE) P with
    | none => none
    | some value =>
      if 65535 < value then some PicoDuration.MAX else some ⟨value⟩

/-- `impl<const P: u64> From<Duration> for PicoDuration<P>`: the
nanosecond-exact zero check, then the comparison and `u128` division on the
whole-millisecond count (`P` widened exactly), with
`try_into().map_or(MAX, PicoDuration)` keeping the quotient when it fits in a
`u16` and saturating otherwise.  The `u128` division panics for `P = 0`. -/
def PicoDuration.from_duration (P : Nat) (d : Duration) : Option PicoDuration :=
  if d.is_zero then some PicoDuration.ZERO
  else if d.as_millis ≤ P then some PicoDuration.MIN
  else
    match checked_div d.as_millis P with
    | none => none
    | some q =>
      if q ≤ 65535 then some ⟨q⟩ else some PicoDuration.MAX

/-- `PicoDuration::<P>::to_duration`: `Duration::from_millis(self.0 as u64 * P)`.
The cast `self.0 as u64` is exact; the product is `u64` arithmetic and wraps
modulo `2 ^ 64` (release semantics). -/
def PicoDuration.to_duration (P : Nat) (d : PicoDuration) : Duration :=
  Duration.from_millis (d.val * P % U64_SIZE)

/-- Characterization of `from_millis` at a positive precision, where the
division cannot panic. -/
theorem from_millis_eq_of_pos (P m : Nat) (hP : P ≠ 0) :
    PicoDuration.from_millis P m =
      some (if m = 0 then PicoDuration.ZERO
        else if m ≤ P then PicoDuration.MIN
        else if 65535 < m / P then PicoDuration.MAX
        else ⟨m / P⟩) := by
  unfold PicoDuration.from_millis checked_div
  by_cases h0 : m = 0
  · simp [h0]
  · by_cases h1 : m ≤ P
    · simp [h0, h1]
    · simp only [h0, h1, if_false, if_neg, hP, ite_false]
      rcases Nat.lt_or_ge 65535 (m / P) with h2 | h2
      · simp [h0, h1, hP, h2]
      · simp [h0, h1, hP, Nat.not_lt.mpr h2]

/-- C1 (amended to positive precision): for every precision `P > 0` and every
64-bit input `m`, `from_millis 0 = ZERO`; for `0 < m ≤ P` the result is
`MIN`; for `m / P > 65535` it is `MAX`; otherwise the round trip through
`to_duration` floors `m` to the nearest multiple of `P`:
`to_duration (from_millis m) = Duration.from_millis (m / P * P)`. -/
theorem from_millis_floor_saturate_pos_precision (P m : Nat)
    (hP : 0 < P) (hm : m < U64_SIZE) :
    PicoDuration.from_millis P 0 = some PicoDuration.ZERO ∧
      (0 < m → m ≤ P → PicoDuration.from_millis P m = some PicoDuration.MIN) ∧
      (65535 < m / P → PicoDuration.from_millis P m = some PicoDuration.MAX) ∧
      (P < m → m / P ≤ 65535 →
        Option.map (PicoDuration.to_duration P) (PicoDuration.from_millis P m) =
          some (Duration.from_millis (m / P * P))) := by
  have hP' : P ≠ 0 := Nat.pos_iff_ne_zero.mp hP
  refine ⟨by simp [PicoDuration.from_millis], ?_, ?_, ?_⟩
  · intro h1 h2
    rw [from_millis_eq_of_pos P m hP']
    simp [Nat.pos_iff_ne_zero.mp h1, h2]
  · intro h
    have hm0 : m ≠ 0 := by
      intro h0
      rw [h0] at h
      simp at h
    have hmP : ¬ m ≤ P := by
      intro hle
      have hd : m / P ≤ 1 := by
        calc m / P ≤ P / P := Nat.div_le_div_right hle
          _ = 1 := Nat.div_self hP
      omega
    rw [from_millis_eq_of_pos P m hP']
    simp [hm0, hmP, h]
  · intro h1 h2
    have hm0 : m ≠ 0 := by omega
    have hmP : ¬ m ≤ P := by omega
    have hq : ¬ 65535 < m / P := Nat.not_lt.mpr h2
    have hlt : m / P * P < U64_SIZE :=
      lt_of_le_of_lt (Nat.div_mul_le_self m P) hm
    rw [from_millis_eq_of_pos P m hP']
    simp [hm0, hmP, hq, PicoDuration.to_duration, Nat.mod_eq_of_lt hlt]

/-- C1 witness: at precision `1000` the input `2500` ms floors to `2000` ms. -/
theorem from_millis_floor_saturate_pos_precision_witness :
    Option.map (PicoDuration.to_duration 1000) (PicoDuration.from_millis 1000 2500) =
      some (Duration.from_millis (2500 / 1000 * 1000)) :=
  (from_millis_floor_saturate_pos_precision 1000 2500 (by decide)
    (by decide)).2.2.2 (by decide) (by decide)

/-- C1 counterexample: at precision `P = 0` and input `m = 1`, `from_millis`
divides by zero and panics, so it yields neither `MAX` nor a value flooring
`m` to a precision multiple: the original claim, quantified over every
precision, fails at `P = 0`. -/
theorem from_millis_zero_precision_cex :
    PicoDuration.from_millis 0 1 = none ∧
      PicoDuration.from_millis 0 1 ≠ some PicoDuration.MAX ∧
      Option.map (PicoDuration.to_duration 0) (PicoDuration.from_millis 0 1) ≠
        some (Duration.from_millis (1 / 0 * 0)) := by
  decide

/-- C6: `from_millis` is monotone: for `a ≤ b`, whenever both inputs encode
successfully (the operation yields a value rather than panicking), the stored
magnitudes — the codec's total order, which the source derives on the `u16`
field — are ordered accordingly. -/
theorem from_millis_monotone (P a b : Nat) (x y : PicoDuration)
    (hab : a ≤ b)
    (hx : PicoDuration.from_millis P a = some x)
    (hy : PicoDuration.from_millis P b = some y) :
    x.val ≤ y.val := by
  by_cases hP : P = 0
  · subst hP
    by_cases ha0 : a = 0
    · have hxz : x = PicoDuration.ZERO := by
        rw [ha0] at hx
        simpa [PicoDuration.from_millis] using hx.symm
      simp [hxz, PicoDuration.ZERO]
    · exfalso
      have hnone : PicoDuration.from_millis 0 a = none := by
        simp [PicoDuration.from_millis, checked_div, ha0, Nat.le_zero]
      rw [hnone] at hx
      exact Option.noConfusion hx
  · rw [from_millis_eq_of_pos P a hP] at hx
    rw [from_millis_eq_of_pos P b hP] at hy
    cases Option.some.inj hx
    cases Option.some.inj hy
    by_cases ha0 : a = 0
    · simp [ha0, PicoDuration.ZERO]
    · have hb0 : b ≠ 0 := by omega
      rw [if_neg ha0, if_neg hb0]
      by_cases haP : a ≤ P
      · rw [if_pos haP]
        by_cases hbP : b ≤ P
        · rw [if_pos hbP]
        · rw [if_neg hbP]
          have h1 : 1 ≤ b / P :=
            (Nat.one_le_div_iff (Nat.pos_of_ne_zero hP)).mpr (by omega)
          by_cases hcap : 65535 < b / P
          · rw [if_pos hcap]
            decide
          · rw [if_neg hcap]
            simpa [PicoDuration.MIN] using h1
      · have hbP : ¬ b ≤ P := by omega
        rw [if_neg haP, if_neg hbP]
        have hdiv : a / P ≤ b / P := Nat.div_le_div_right hab
        by_cases hcapa : 65535 < a / P
        · have hcapb : 65535 < b / P := lt_of_lt_of_le hcapa hdiv
          rw [if_pos hcapa, if_pos hcapb]
        · rw [if_neg hcapa]
          by_cases hcapb : 65535 < b / P
          · rw [if_pos hcapb]
            simpa [PicoDuration.MAX] using Nat.le_of_not_lt hcapa
          · rw [if_neg hcapb]
            simpa using hdiv

/-- C6 witness: at precision `1000`, inputs `3500 ≤ 7500` encode to the
ordered magnitudes `3 ≤ 7`. -/
theorem from_millis_monotone_witness :
    (PicoDuration.mk 3).val ≤ (PicoDuration.mk 7).val :=
  from_millis_monotone 1000 3500 7500 ⟨3⟩ ⟨7⟩ (by decide) (by decide) (by decide)

/-- C7: `from_secs` implements the same floor/saturate policy as
`from_millis` applied to `secs * 1000` — its minimum case compares `secs`
against the second-denominated precision `P / 1000` — and the intermediate
product `secs * 1000` is carried in 64-bit width, which does not overflow for
any `secs ≤ 2 ^ 32`. -/
theorem from_secs_agrees_with_from_millis (P secs : Nat) (hs : secs ≤ 2 ^ 32) :
    PicoDuration.from_secs P secs = PicoDuration.from_millis P (secs * 1000) ∧
      secs * 1000 % U64_SIZE = secs * 1000 := by
  have hlt : secs * 1000 < U64_SIZE := by
    have h1 : secs * 1000 ≤ 2 ^ 32 * 1000 := Nat.mul_le_mul_right 1000 hs
    have h2 : 2 ^ 32 * 1000 < U64_SIZE := by norm_num [U64_SIZE]
    omega
  refine ⟨?_, Nat.mod_eq_of_lt hlt⟩
  unfold PicoDuration.from_secs PicoDuration.from_millis
  rw [Nat.mod_eq_of_lt hlt]
  by_cases h0 : secs = 0
  · simp [h0]
  · have h0' : ¬ secs * 1000 = 0 := by
      simp [h0]
    rw [if_neg h0, if_neg h0']
    by_cases hmin : secs * 1000 ≤ P
    · rw [if_pos ((Nat.le_div_iff_mul_le (by norm_num)).mpr hmin), if_pos hmin]
    · rw [if_neg (fun hc => hmin ((Nat.le_div_iff_mul_le (by norm_num)).mp hc)),
        if_neg hmin]

/-- C7 witness: at precision `1000`, `from_secs 65` agrees with
`from_millis 65000`, and the intermediate product does not wrap. -/
theorem from_secs_agrees_with_from_millis_witness :
    PicoDuration.from_secs 1000 65 = PicoDuration.from_millis 1000 (65 * 1000) ∧
      65 * 1000 % U64_SIZE = 65 * 1000 :=
  from_secs_agrees_with_from_millis 1000 65 (by decide)

/-- C3 (amended to positive precision): for every precision `P > 0` the codec
operations are total — `from_millis`, `from_secs` and the `Duration`
conversion return a value on every input (no failure, no division-by-zero
panic), and `to_duration` is a total function whose 64-bit product wraps
modulo `2 ^ 64`. -/
theorem codec_total_pos_precision (P : Nat) (hP : 0 < P) :
    (∀ m, (PicoDuration.from_millis P m).isSome) ∧
      (∀ s, (PicoDuration.from_secs P s).isSome) ∧
      (∀ d : Duration, (PicoDuration.from_duration P d).isSome) ∧
      (∀ x : PicoDuration, PicoDuration.to_duration P x =
        Duration.from_millis (x.val * P % U64_SIZE)) := by
  have hP' : P ≠ 0 := Nat.pos_iff_ne_zero.mp hP
  refine ⟨?_, ?_, ?_, fun x => rfl⟩
  · intro m
    by_cases h0 : m = 0
    · simp [PicoDuration.from_millis, h0]
    · by_cases h1 : m ≤ P
      · simp [PicoDuration.from_millis, h0, h1]
      · rcases Nat.lt_or_ge 65535 (m / P) with h2 | h2
        · simp [PicoDuration.from_millis, h0, h1, checked_div, hP', h2]
        · simp [PicoDuration.from_millis, h0, h1, checked_div, hP',
            Nat.not_lt.mpr h2]
  · intro s
    by_cases h0 : s = 0
    · simp [PicoDuration.from_secs, h0]
    · by_cases h1 : s ≤ P / 1000
      · simp [PicoDuration.from_secs, h0, h1]
      · rcases Nat.lt_or_ge 65535 (s * 1000 % U64_SIZE / P) with h2 | h2
        · simp [PicoDuration.from_secs, h0, h1, checked_div, hP', h2]
        · simp [PicoDuration.from_secs, h0, h1, checked_div, hP',
            Nat.not_lt.mpr h2]
  · intro d
    by_cases h0 : d.is_zero
    · simp [PicoDuration.from_duration, h0]
    · by_cases h1 : d.as_millis ≤ P
      · simp [PicoDuration.from_duration, h0, h1]
      · rcases le_or_lt (d.as_millis / P) 65535 with h2 | h2
        · simp [PicoDuration.from_duration, h0, h1, checked_div, hP', h2]
        · simp [PicoDuration.from_duration, h0, h1, checked_div, hP',
            Nat.not_le.mpr h2]

/-- C3 witness: at precision `1000`, each conversion yields a value on a
sample input. -/
theorem codec_total_pos_precision_witness :
    (PicoDuration.from_millis 1000 123).isSome ∧
      (PicoDuration.from_secs 1000 7).isSome ∧
      (PicoDuration.from_duration 1000 ⟨1, 2⟩).isSome := by
  have h := codec_total_pos_precision 1000 (by decide)
  exact ⟨h.1 123, h.2.1 7, h.2.2.1 ⟨1, 2⟩⟩

/-- C3 counterexample: at precision `P = 0`, `from_secs 5` divides by zero
and panics, so the codec operations are not total for every precision
parameter including zero. -/
theorem from_secs_zero_precision_cex : PicoDuration.from_secs 0 5 = none := by
  decide

/-- A `Duration` that is nanosecond-exact zero has millisecond count zero. -/
theorem as_millis_eq_zero_of_is_zero (d : Duration) (h : d.is_zero = true) :
    d.as_millis = 0 := by
  have h' : d.secs = 0 ∧ d.nanos = 0 := by
    simpa [Duration.is_zero, Bool.and_eq_true, beq_iff_eq] using h
  simp [Duration.as_millis, h'.1, h'.2]

/-- C4 (amended): the `Duration` conversion agrees with `from_millis` on the
whole-millisecond count for every duration that is exactly zero or has a
nonzero millisecond count fitting in 64 bits (positive sub-millisecond
durations diverge: they encode as `MIN` while `from_millis 0` is `ZERO`); for
counts beyond the 64-bit range the `u128` division is used, with `P > 0` in
its `u64` range, and the quotient is kept exactly when it fits in 16 bits and
saturated to `MAX` otherwise. -/
theorem from_duration_refines_from_millis :
    (∀ (P : Nat) (d : Duration), d.as_millis < U64_SIZE →
        (d.is_zero = true ∨ 0 < d.as_millis) →
        PicoDuration.from_duration P d = PicoDuration.from_millis P d.as_millis) ∧
      (∀ (P : Nat) (d : Duration), 0 < P → P < U64_SIZE →
        U64_SIZE ≤ d.as_millis →
        PicoDuration.from_duration P d =
          some (if 65535 < d.as_millis / P then PicoDuration.MAX
            else ⟨d.as_millis / P⟩)) := by
  constructor
  · intro P d _ hd
    by_cases hz : d.is_zero
    · have hm0 : d.as_millis = 0 := as_millis_eq_zero_of_is_zero d hz
      simp [PicoDuration.from_duration, hz, PicoDuration.from_millis, hm0]
    · have hm0 : d.as_millis ≠ 0 := by
        rcases hd with h | h
        · exact absurd h hz
        · omega
      unfold PicoDuration.from_duration PicoDuration.from_millis
      rw [if_neg hz, if_neg hm0]
      by_cases hP1 : d.as_millis ≤ P
      · rw [if_pos hP1, if_pos hP1]
      · rw [if_neg hP1, if_neg hP1]
        by_cases hP0 : P = 0
        · simp [checked_div, hP0]
        · simp only [checked_div, hP0, if_false, ite_false]
          rcases Nat.lt_or_ge 65535 (d.as_millis / P) with h2 | h2
          · simp [hP0, h2, Nat.not_le.mpr h2]
          · simp [hP0, h2, Nat.not_lt.mpr h2]
  · intro P d hP hPu hd
    have hpos : 0 < U64_SIZE := by norm_num [U64_SIZE]
    have hz : d.is_zero = false := by
      cases hb : d.is_zero
      · rfl
      · have := as_millis_eq_zero_of_is_zero d hb
        omega
    have hmP : ¬ d.as_millis ≤ P := by omega
    unfold PicoDuration.from_duration
    rw [if_neg (by simp [hz]), if_neg hmP]
    simp only [checked_div, Nat.pos_iff_ne_zero.mp hP, if_false, ite_false]
    rcases Nat.lt_or_ge 65535 (d.as_millis / P) with h2 | h2
    · simp [h2, Nat.not_le.mpr h2, Nat.pos_iff_ne_zero.mp hP]
    · simp [h2, Nat.not_lt.mpr h2, Nat.pos_iff_ne_zero.mp hP]

/-- C4 witness: a 2-second duration agrees with `from_millis 2000` at
precision `1000`, and a duration of `2 ^ 61` seconds, whose millisecond count
exceeds 64 bits, follows the `u128` saturation rule at precision `1`. -/
theorem from_duration_refines_from_millis_witness :
    PicoDuration.from_duration 1000 ⟨2, 0⟩ =
        PicoDuration.from_millis 1000 (Duration.as_millis ⟨2, 0⟩) ∧
      PicoDuration.from_duration 1 ⟨2 ^ 61, 0⟩ =
        some (if 65535 < Duration.as_millis ⟨2 ^ 61, 0⟩ / 1 then PicoDuration.MAX
          else ⟨Duration.as_millis ⟨2 ^ 61, 0⟩ / 1⟩) :=
  ⟨from_duration_refines_from_millis.1 1000 ⟨2, 0⟩ (by decide)
      (Or.inr (by decide)),
    from_duration_refines_from_millis.2 1 ⟨2 ^ 61, 0⟩ (by decide) (by decide)
      (by decide)⟩

/-- C4 counterexample: the half-millisecond duration `⟨0, 500000⟩` has
whole-millisecond count `0`, which fits in 64 bits, yet the `Duration`
conversion yields `MIN` while `from_millis` on that count yields `ZERO`: the
claim's unrestricted equivalence fails for positive sub-millisecond
durations. -/
theorem from_duration_submilli_cex :
    Duration.as_millis ⟨0, 500000⟩ < U64_SIZE ∧
      PicoDuration.from_duration 1000 ⟨0, 500000⟩ ≠
        PicoDuration.from_millis 1000 (Duration.as_millis ⟨0, 500000⟩) := by
  decide

/-- C10: every strictly positive duration shorter than one millisecond (not
nanosecond-zero, but with whole-millisecond count `0`) converts to `MIN`, not
`ZERO`, at every precision: a positive measured interval is never recorded as
zero. -/
theorem from_duration_submilli_is_min (P : Nat) (d : Duration)
    (hz : d.is_zero = false) (hm : d.as_millis = 0) :
    PicoDuration.from_duration P d = some PicoDuration.MIN ∧
      PicoDuration.MIN ≠ PicoDuration.ZERO := by
  refine ⟨?_, by decide⟩
  unfold PicoDuration.from_duration
  rw [if_neg (by simp [hz]), if_pos (le_of_eq_of_le hm (Nat.zero_le P))]

/-- C10 witness: the duration `999999` ns is positive, has millisecond count
`0`, and converts to `MIN` at precision `1000`. -/
theorem from_duration_submilli_is_min_witness :
    PicoDuration.from_duration 1000 ⟨0, 999999⟩ = some PicoDuration.MIN ∧
      PicoDuration.MIN ≠ PicoDuration.ZERO :=
  from_duration_submilli_is_min 1000 ⟨0, 999999⟩ (by decide) (by decide)

/-- `run::Error`, modelled from its uses in `commands/run.rs`: the
`SignalHandler` variant wraps the OS error produced while installing a signal
listener (represented by its error number); every other variant of the enum,
which is defined outside the embedded sources and is opaque to the
orchestrator, is collapsed into a representative `pipeline` variant. -/
inductive RunError where
  | signalHandler (errno : Nat)
  | pipeline (code : Nat)
deriving DecidableEq

/-- Modelled from the spec: the `SignalHandler` coordinator (its
implementation lives outside the embedded sources) exclusively owns the OS
signal listener as a scoped resource; only the listener-ownership state
matters to the claims below. -/
structure SignalHandler where
  installed : Bool
deriving DecidableEq

/-- Modelled from the spec: `SignalHandler::close` is the idempotent
finalization that releases the OS listener. -/
def SignalHandler.close (_h : SignalHandler) : SignalHandler := ⟨false⟩

/-- Modelled from the spec: dropping the handler at scope exit (structured
scoped acquisition) releases the OS listener. -/
def SignalHandler.drop_release (_h : SignalHandler) : SignalHandler := ⟨false⟩

/-- Outcome of `run_with_signal_handler` on a completed exit path: the
returned `Result<i32, run::Error>`, the listener state of the handler at
return (the handler is moved into the function and dropped on return),
whether `handler.close()` was called, and whether control reached the
`tokio::select!` race. -/
structure OrchOutcome where
  result : Except RunError Int
  handler : SignalHandler
  close_called : Bool
  race_reached : Bool

/-- `run_with_signal_handler`.  `api_client` and `new_run` are the results of
`base.api_client()` and `Run::new(base)` (their success payloads are opaque
to the control flow and elided; `?` propagates their errors).  The
`tokio::select! { biased; ... }` race is modelled by its poll state at the
decision instant: `signal_ready` says whether `handler.done()` is ready and
`run_result` is `some r` when the run future is ready with result `r`.
Biased selection polls the signal branch first, so a ready signal wins even
when the run future is simultaneously ready; the signal branch returns
`Ok(1)` without closing (the signal already notified subscribers), the run
branch awaits `handler.close()` and forwards the run result; `none` stands
for the suspended state in which neither future is ready yet. -/
def run_with_signal_handler (handler : SignalHandler)
    (api_client new_run : Except RunError Unit)
    (signal_ready : Bool) (run_result : Option (Except RunError Int)) :
    Option OrchOutcome :=
  match api_client with
  | .error e => some ⟨.error e, handler.drop_release, false, false⟩
  | .ok _ =>
    match new_run with
    | .error e => some ⟨.error e, handler.drop_release, false, false⟩
    | .ok _ =>
      if signal_ready then
        some ⟨.ok 1, handler.drop_release, false, true⟩
      else
        match run_result with
        | some r => some ⟨r, handler.close.drop_release, true, true⟩
        | none => none

/-- `get_signal` (the non-Windows path): installs the SIGINT and the SIGTERM
listeners in turn; each installation may fail with an OS error, which
`map_err` wraps in `run::Error::SignalHandler` and `?` propagates.  The
returned signal future is represented by `()`; its readiness is the
`signal_ready` oracle of `run_with_signal_handler`. -/
def get_signal (sigint sigterm : Except Nat Unit) : Except RunError Unit :=
  match sigint with
  | .error e => .error (.signalHandler e)
  | .ok _ =>
    match sigterm with
    | .error e => .error (.signalHandler e)
    | .ok _ => .ok ()

/-- `commands::run::run`: `get_signal()?` propagates a setup error before
anything else happens; otherwise the `SignalHandler` is built around the
installed listener and the call is delegated to `run_with_signal_handler`. -/
def Commands.run (sigint sigterm : Except Nat Unit)
    (api_client new_run : Except RunError Unit)
    (signal_ready : Bool) (run_result : Option (Except RunError Int)) :
    Option (Except RunError Int) :=
  match get_signal sigint sigterm with
  | .error e => some (.error e)
  | .ok _ =>
    (run_with_signal_handler ⟨true⟩ api_client new_run signal_ready
      run_result).map OrchOutcome.result

/-- C2: in the biased race, whenever the cancellation signal future is ready
— whatever the simultaneous state of the run future, ready with either
outcome or still pending — the orchestrator decides immediately: it returns
`Ok(1)` and never reports the run future's outcome nor waits on it. -/
theorem signal_wins_biased_race (h : SignalHandler)
    (rr : Option (Except RunError Int)) :
    run_with_signal_handler h (Except.ok ()) (Except.ok ()) true rr =
      some ⟨Except.ok 1, ⟨false⟩, false, true⟩ := rfl

/-- C5: when the run future completes first (the signal is not ready at the
decision instant), the orchestrator calls `close()` on the coordinator before
returning and forwards the pipeline's own result verbatim — its exit code on
success and its `RunError` unchanged on failure. -/
theorem run_wins_closes_and_returns_verbatim (h : SignalHandler)
    (r : Except RunError Int) :
    run_with_signal_handler h (Except.ok ()) (Except.ok ()) false (some r) =
      some ⟨r, ⟨false⟩, true, true⟩ := rfl

/-- C8: on every completed exit path of `run_with_signal_handler` — early
setup failure from `api_client` or `Run::new` after the coordinator exists, a
signal win, or an early run win — the OS signal listener is released: no exit
leaves it installed. -/
theorem listener_released_every_exit (h : SignalHandler)
    (ac nr : Except RunError Unit) (sr : Bool)
    (rr : Option (Except RunError Int)) (out : OrchOutcome)
    (hout : run_with_signal_handler h ac nr sr rr = some out) :
    out.handler.installed = false := by
  unfold run_with_signal_handler at hout
  cases ac with
  | error e =>
    cases Option.some.inj hout
    rfl
  | ok u =>
    cases nr with
    | error e =>
      cases Option.some.inj hout
      rfl
    | ok v =>
      cases sr with
      | true =>
        rw [if_pos rfl] at hout
        cases Option.some.inj hout
        rfl
      | false =>
        rw [if_neg Bool.false_ne_true] at hout
        cases rr with
        | some r =>
          cases Option.some.inj hout
          rfl
        | none => exact Option.noConfusion hout

/-- C8 witness: the exit path on which `api_client` fails releases the
listener. -/
theorem listener_released_every_exit_witness :
    (OrchOutcome.mk (Except.error (RunError.pipeline 3)) ⟨false⟩ false
      false).handler.installed = false :=
  listener_released_every_exit ⟨true⟩ (Except.error (RunError.pipeline 3))
    (Except.ok ()) false none
    ⟨Except.error (RunError.pipeline 3), ⟨false⟩, false, false⟩ rfl

/-- C9: if installing a signal listener fails, `run` fails with the
`SignalHandler` error kind and no race is attempted: the outcome is already
fixed before the coordinator is built, independently of the api client, the
run pipeline, and the race state. -/
theorem signal_setup_failure_aborts (si st : Except Nat Unit) (err : RunError)
    (hfail : get_signal si st = Except.error err) :
    (∃ e, err = RunError.signalHandler e) ∧
      ∀ ac nr sr rr, Commands.run si st ac nr sr rr =
        some (Except.error err) := by
  constructor
  · cases si with
    | error e =>
      have h1 : get_signal (Except.error e) st =
          Except.error (RunError.signalHandler e) := rfl
      rw [h1] at hfail
      exact ⟨e, (Except.error.inj hfail).symm⟩
    | ok u =>
      cases st with
      | error e =>
        have h1 : get_signal (Except.ok u) (Except.error e) =
            Except.error (RunError.signalHandler e) := rfl
        rw [h1] at hfail
        exact ⟨e, (Except.error.inj hfail).symm⟩
      | ok v => exact Except.noConfusion hfail
  · intro ac nr sr rr
    unfold Commands.run
    rw [hfail]

/-- C9 witness: a SIGINT installation failure with error number `5` makes
`run` return the `SignalHandler` error without consulting any race input. -/
theorem signal_setup_failure_aborts_witness :
    (∃ e, RunError.signalHandler 5 = RunError.signalHandler e) ∧
      Commands.run (Except.error 5) (Except.ok ()) (Except.ok ())
        (Except.ok ()) false none =
        some (Except.error (RunError.signalHandler 5)) :=
  ⟨(signal_setup_failure_aborts (Except.error 5) (Except.ok ())
      (RunError.signalHandler 5) rfl).1,
    (signal_setup_failure_aborts (Except.error 5) (Except.ok ())
      (RunError.signalHandler 5) rfl).2 (Except.ok ()) (Except.ok ())
      false none⟩
